import Mathlib

/-!
Verification of the dataset assembler and policy training loop of
`scripts/perception_policy_train.py` together with the argument parser of
`src/motion_planning/utils.py` (repository `affordance_gym`).

Numpy arrays are embedded as Lean lists of rationals; a 2-D array is a list
of rows, a 3-D array a list of list of rows.  Randomness (the debug-mode
index draw, the train/validation shuffle) is embedded by passing the drawn
values as explicit parameters constrained to the range the random source
can produce.  External collaborators (the trajectory decoder, the policy
network, the forward-kinematics function, the angle constants of
`behavioural_vae.utils`) are opaque parameters.
-/

set_option autoImplicit false

namespace AffordanceGym

/-- One episode file on disk (`np.load` result in `load_dataset`,
`scripts/perception_policy_train.py` lines 30-38): six positionally
indexed aligned arrays.  `latents` is the 3-D array `dataset[0]`
(sample x time-step x latent-dim), `object_ids` is the unused slot
`dataset[4]`, `target_coords` is `dataset[5]`. -/
structure EpisodeFile where
  latents : List (List (List ℚ))
  camera_distances : List ℚ
  azimuths : List ℚ
  elevations : List ℚ
  object_ids : List ℚ
  target_coords : List (List ℚ)
deriving Repr, DecidableEq

/-- All six arrays of a file share the same leading (sample) dimension. -/
def EpisodeFile.consistent (f : EpisodeFile) : Prop :=
  f.latents.length = f.camera_distances.length ∧
  f.camera_distances.length = f.azimuths.length ∧
  f.azimuths.length = f.elevations.length ∧
  f.elevations.length = f.target_coords.length

/-- Number of samples stored in a file. -/
def EpisodeFile.sampleCount (f : EpisodeFile) : ℕ :=
  f.camera_distances.length

/-- The slice `dataset[0][:, 0, :]` (line 33, the "Bug fix" slice): keep only the
first time step of every sample's latent array. -/
def sliceFirstTimestep (lat : List (List (List ℚ))) : List (List ℚ) :=
  lat.map (fun sample => sample.headD [])

/-- Models `np.min` over a 1-D array (empty input never occurs in the script;
0 is a junk value for totality). -/
def npMin : List ℚ → ℚ
  | [] => 0
  | x :: xs => xs.foldl min x

/-- Models `np.max` over a 1-D array. -/
def npMax : List ℚ → ℚ
  | [] => 0
  | x :: xs => xs.foldl max x

/-- The channel normalization `(xs - np.min(xs)) / (np.max(xs) - np.min(xs))` of lines 49-51. -/
def normalizeChannel (xs : List ℚ) : List ℚ :=
  xs.map (fun x => (x - npMin xs) / (npMax xs - npMin xs))

/-- The `np.concatenate` of the per-file latent slices (lines 33 and 42). -/
def assembledLatents (files : List EpisodeFile) : List (List ℚ) :=
  (files.map (fun f => sliceFirstTimestep f.latents)).flatten

/-- Normalized concatenated camera distances (lines 34, 43 and 49). -/
def assembledDistances (files : List EpisodeFile) : List ℚ :=
  normalizeChannel ((files.map (fun f => f.camera_distances)).flatten)

/-- Normalized concatenated azimuths (lines 35, 44 and 50). -/
def assembledAzimuths (files : List EpisodeFile) : List ℚ :=
  normalizeChannel ((files.map (fun f => f.azimuths)).flatten)

/-- Normalized concatenated elevations (lines 36, 45 and 51). -/
def assembledElevations (files : List EpisodeFile) : List ℚ :=
  normalizeChannel ((files.map (fun f => f.elevations)).flatten)

/-- The `np.concatenate` of the per-file target coordinates (lines 38 and 46). -/
def assembledTargets (files : List EpisodeFile) : List (List ℚ) :=
  (files.map (fun f => f.target_coords)).flatten

/-- The fixed-camera boolean mask (lines 53-62), exactly as written in the
source: `(camera_distances == distance) * (elevations == azimuth) *
(azimuths == elevation)` where `distance/azimuth/elevation` are the first
entries of the respective (already normalized) arrays.  Note the source
compares `elevations` against the first *azimuth* and `azimuths` against
the first *elevation*. -/
def fixedMask (dists azs els : List ℚ) : List Bool :=
  let d0 := dists.headD 0
  let a0 := azs.headD 0
  let e0 := els.headD 0
  (dists.zip (azs.zip els)).map
    (fun p => decide (p.1 = d0) && decide (p.2.2 = a0) && decide (p.2.1 = e0))

/-- Numpy boolean-mask indexing `xs[mask]` (lines 64-65). -/
def maskFilter {α : Type} (mask : List Bool) (xs : List α) : List α :=
  ((mask.zip xs).filter (fun p => p.1)).map (fun p => p.2)

/-- Line 68, `np.concatenate([latents, d[:, None], a[:, None], e[:, None]], axis=1)`: append the three camera scalars to each latent row. -/
def appendCamera (lats : List (List ℚ)) (dists azs els : List ℚ) :
    List (List ℚ) :=
  (lats.zip (dists.zip (azs.zip els))).map
    (fun p => p.1 ++ [p.2.1, p.2.2.1, p.2.2.2])

/-- Models `load_dataset` (lines 17-79) with `debug=False`: returns the pair of
the input rows and the target rows of the produced `TensorDataset`.
`fixed_camera=True` filters by the mask of lines 53-62; otherwise the
camera scalars are appended to the latents. -/
def loadDataset (files : List EpisodeFile) (fixed_camera : Bool) :
    List (List ℚ) × List (List ℚ) :=
  let lats := assembledLatents files
  let dists := assembledDistances files
  let azs := assembledAzimuths files
  let els := assembledElevations files
  let targets := assembledTargets files
  if fixed_camera then
    let mask := fixedMask dists azs els
    (maskFilter mask lats, maskFilter mask targets)
  else
    (appendCamera lats dists azs els, targets)

/-- Debug-mode index draw (line 72): `np.random.random_integers(0, n, 10)`
can produce any integer in the *inclusive* range `[0, n]`.  This predicate
describes one possible drawn index. -/
def debugIndexPossible (n : ℕ) (k : ℕ) : Prop := k ≤ n

/-- A whole possible debug draw: ten indices, each in the inclusive range
of `np.random.random_integers(0, n, 10)`. -/
def debugDrawPossible (n : ℕ) (idxs : List ℕ) : Prop :=
  idxs.length = 10 ∧ ∀ k ∈ idxs, debugIndexPossible n k

/-- Numpy fancy indexing `inputs[indices]` (lines 73-74): `none` models the
`IndexError` raised when an index is out of range. -/
def fancyIndex {α : Type} (xs : List α) (idxs : List ℕ) :
    Option (List α) :=
  idxs.mapM (fun i => xs.get? i)

/-! ### Helper lemmas about `npMin`, `npMax` and `normalizeChannel` -/

theorem foldl_min_le_init : ∀ (xs : List ℚ) (a : ℚ), xs.foldl min a ≤ a
  | [], a => le_refl a
  | x :: xs, a =>
    le_trans (foldl_min_le_init xs (min a x)) (min_le_left a x)

theorem foldl_max_init_le : ∀ (xs : List ℚ) (a : ℚ), a ≤ xs.foldl max a
  | [], a => le_refl a
  | x :: xs, a =>
    le_trans (le_max_left a x) (foldl_max_init_le xs (max a x))

theorem foldl_min_le_mem :
    ∀ (xs : List ℚ) (a x : ℚ), x ∈ xs → xs.foldl min a ≤ x
  | [], _, x, h => absurd h (List.not_mem_nil x)
  | y :: ys, a, x, h => by
    rcases List.mem_cons.mp h with h1 | h2
    · subst h1
      exact le_trans (foldl_min_le_init ys (min a x)) (min_le_right a x)
    · exact foldl_min_le_mem ys (min a y) x h2

theorem foldl_max_mem_le :
    ∀ (xs : List ℚ) (a x : ℚ), x ∈ xs → x ≤ xs.foldl max a
  | [], _, x, h => absurd h (List.not_mem_nil x)
  | y :: ys, a, x, h => by
    rcases List.mem_cons.mp h with h1 | h2
    · subst h1
      exact le_trans (le_max_right a x) (foldl_max_init_le ys (max a x))
    · exact foldl_max_mem_le ys (max a y) x h2

theorem foldl_min_mem :
    ∀ (xs : List ℚ) (a : ℚ), xs.foldl min a = a ∨ xs.foldl min a ∈ xs
  | [], _ => Or.inl rfl
  | x :: xs, a => by
    rcases foldl_min_mem xs (min a x) with h | h
    · rw [List.foldl_cons, h]
      rcases min_choice a x with h' | h'
      · exact Or.inl h'
      · exact Or.inr (by rw [h']; exact List.mem_cons_self x xs)
    · exact Or.inr (List.mem_cons_of_mem x (by rwa [List.foldl_cons]))

theorem foldl_max_mem :
    ∀ (xs : List ℚ) (a : ℚ), xs.foldl max a = a ∨ xs.foldl max a ∈ xs
  | [], _ => Or.inl rfl
  | x :: xs, a => by
    rcases foldl_max_mem xs (max a x) with h | h
    · rw [List.foldl_cons, h]
      rcases max_choice a x with h' | h'
      · exact Or.inl h'
      · exact Or.inr (by rw [h']; exact List.mem_cons_self x xs)
    · exact Or.inr (List.mem_cons_of_mem x (by rwa [List.foldl_cons]))

theorem npMin_le {xs : List ℚ} {x : ℚ} (h : x ∈ xs) : npMin xs ≤ x := by
  cases xs with
  | nil => exact absurd h (List.not_mem_nil x)
  | cons y ys =>
    rcases List.mem_cons.mp h with h1 | h2
    · subst h1; exact foldl_min_le_init ys x
    · exact foldl_min_le_mem ys y x h2

theorem le_npMax {xs : List ℚ} {x : ℚ} (h : x ∈ xs) : x ≤ npMax xs := by
  cases xs with
  | nil => exact absurd h (List.not_mem_nil x)
  | cons y ys =>
    rcases List.mem_cons.mp h with h1 | h2
    · subst h1; exact foldl_max_init_le ys x
    · exact foldl_max_mem_le ys y x h2

theorem npMax_mem {xs : List ℚ} (h : xs ≠ []) : npMax xs ∈ xs := by
  cases xs with
  | nil => exact absurd rfl h
  | cons y ys =>
    rcases foldl_max_mem ys y with h' | h'
    · have hy : npMax (y :: ys) = y := h'
      rw [hy]; exact List.mem_cons_self y ys
    · exact List.mem_cons_of_mem y h'

theorem npMin_lt_npMax {xs : List ℚ} (h : xs ≠ [])
    (hne : npMin xs ≠ npMax xs) : npMin xs < npMax xs :=
  lt_of_le_of_ne (npMin_le (npMax_mem h)) hne

/-- Core property of the min-max normalization of lines 49-51: when the
channel is non-degenerate every normalized value lies in `[0, 1]`, the
entries holding the channel minimum map to `0` and the entries holding the
maximum map to `1`. -/
theorem normalizeChannel_spec (xs : List ℚ) (hne : npMin xs ≠ npMax xs) :
    (∀ y ∈ normalizeChannel xs, 0 ≤ y ∧ y ≤ 1) ∧
    (∀ (i : ℕ) (x : ℚ), xs.get? i = some x → x = npMin xs →
       (normalizeChannel xs).get? i = some 0) ∧
    (∀ (i : ℕ) (x : ℚ), xs.get? i = some x → x = npMax xs →
       (normalizeChannel xs).get? i = some 1) := by
  refine ⟨?_, ?_, ?_⟩
  · intro y hy
    rcases List.mem_map.mp hy with ⟨x, hx, hxy⟩
    have hnil : xs ≠ [] := by
      intro hc; rw [hc] at hx; exact List.not_mem_nil x hx
    have hlt : npMin xs < npMax xs := npMin_lt_npMax hnil hne
    subst hxy
    constructor
    · exact div_nonneg (sub_nonneg.mpr (npMin_le hx)) (le_of_lt (sub_pos.mpr hlt))
    · exact (div_le_one (sub_pos.mpr hlt)).mpr (sub_le_sub_right (le_npMax hx) _)
  · intro i x hi hx
    rw [normalizeChannel, List.get?_map, hi]
    simp [hx]
  · intro i x hi hx
    rw [normalizeChannel, List.get?_map, hi]
    have hMm : npMax xs - npMin xs ≠ 0 := sub_ne_zero.mpr (Ne.symm hne)
    simp [hx, div_self hMm]

/-- Index-wise description of the mask of lines 53-62: position `i` is
selected exactly when its distance equals the first distance, its
*elevation* equals the first *azimuth* and its *azimuth* equals the first
*elevation* (the index swap written in the source). -/
theorem fixedMask_get? (dists azs els : List ℚ) (i : ℕ) (d a e : ℚ)
    (hd : dists.get? i = some d) (ha : azs.get? i = some a)
    (he : els.get? i = some e) :
    ((fixedMask dists azs els).get? i = some true ↔
      (d = dists.headD 0 ∧ e = azs.headD 0 ∧ a = els.headD 0)) := by
  have hz : (dists.zip (azs.zip els)).get? i = some (d, (a, e)) :=
    (List.get?_zip_eq_some _ _ _ _).mpr
      ⟨hd, (List.get?_zip_eq_some _ _ _ _).mpr ⟨ha, he⟩⟩
  rw [fixedMask, List.get?_map, hz]
  simp [and_assoc]

theorem maskFilter_eq_nil {α : Type} :
    ∀ (mask : List Bool) (xs : List α),
      (∀ b ∈ mask, b = false) → maskFilter mask xs = []
  | [], _, _ => rfl
  | _ :: _, [], _ => rfl
  | b :: mask, x :: xs, h => by
    have hb : b = false := h b (List.mem_cons_self b mask)
    subst hb
    have : maskFilter mask xs = [] :=
      maskFilter_eq_nil mask xs (fun c hc => h c (List.mem_cons_of_mem _ hc))
    simpa [maskFilter] using this

/-- A concrete three-sample episode file exhibiting the index swap of the
fixed-camera mask.  Raw camera triplets: sample 0 is `(1, 0, 1)`, sample 1
is `(2, 1, 0)`, sample 2 is `(1, 1, 0)`. -/
def exFixedFile : EpisodeFile :=
  { latents := [[[10]], [[20]], [[30]]]
  , camera_distances := [1, 2, 1]
  , azimuths := [0, 1, 1]
  , elevations := [1, 0, 0]
  , object_ids := [0, 0, 0]
  , target_coords := [[1], [2], [3]] }

/-- C1 (counterexample): on `exFixedFile`, fixed-camera `load_dataset`
returns exactly the latent of sample 2, whose camera triplet `(1, 1, 0)`
differs from the first sample's triplet `(1, 0, 1)` (and likewise on the
normalized values, where sample 2 has triplet `(0, 1, 0)` against the
first sample's `(0, 0, 1)`); sample 0 itself is dropped.  So the claim
"only samples whose triplet equals the first sample's triplet are
returned" is false of the code. -/
theorem fixed_camera_filter_counterexample :
    loadDataset [exFixedFile] true = ([[30]], [[3]]) ∧
    exFixedFile.camera_distances.get? 2 = some 1 ∧
    exFixedFile.azimuths.get? 2 = some 1 ∧
    exFixedFile.elevations.get? 2 = some 0 ∧
    exFixedFile.camera_distances.get? 0 = some 1 ∧
    exFixedFile.azimuths.get? 0 = some 0 ∧
    exFixedFile.elevations.get? 0 = some 1 ∧
    (((1 : ℚ), (1 : ℚ), (0 : ℚ)) ≠ ((1 : ℚ), (0 : ℚ), (1 : ℚ))) ∧
    (assembledLatents [exFixedFile]).get? 2 = some [30] ∧
    (assembledDistances [exFixedFile]).get? 2 = some 0 ∧
    (assembledAzimuths [exFixedFile]).get? 2 = some 1 ∧
    (assembledElevations [exFixedFile]).get? 2 = some 0 ∧
    (assembledDistances [exFixedFile]).get? 0 = some 0 ∧
    (assembledAzimuths [exFixedFile]).get? 0 = some 0 ∧
    (assembledElevations [exFixedFile]).get? 0 = some 1 := by
  refine ⟨?_, ?_⟩
  · norm_num [loadDataset, exFixedFile, assembledLatents, assembledDistances,
      assembledAzimuths, assembledElevations, assembledTargets,
      sliceFirstTimestep, normalizeChannel, npMin, npMax, fixedMask,
      maskFilter]
  · norm_num [exFixedFile, assembledLatents, assembledDistances,
      assembledAzimuths, assembledElevations, sliceFirstTimestep,
      normalizeChannel, npMin, npMax]

/-- C1 (amended): in fixed-camera mode the mask selects exactly the
positions whose (normalized) distance equals the first distance, whose
elevation equals the first *azimuth* and whose azimuth equals the first
*elevation*; when no position satisfies this swapped condition the
returned dataset is empty. -/
theorem fixed_camera_filter_amended :
    (∀ (files : List EpisodeFile) (i : ℕ) (d a e : ℚ),
        (assembledDistances files).get? i = some d →
        (assembledAzimuths files).get? i = some a →
        (assembledElevations files).get? i = some e →
        ((fixedMask (assembledDistances files) (assembledAzimuths files)
            (assembledElevations files)).get? i = some true ↔
          (d = (assembledDistances files).headD 0 ∧
           e = (assembledAzimuths files).headD 0 ∧
           a = (assembledElevations files).headD 0))) ∧
    (∀ files : List EpisodeFile,
        (∀ b ∈ fixedMask (assembledDistances files) (assembledAzimuths files)
            (assembledElevations files), b = false) →
        loadDataset files true = ([], [])) := by
  constructor
  · intro files i d a e hd ha he
    exact fixedMask_get? _ _ _ i d a e hd ha he
  · intro files hmask
    rw [loadDataset]
    simp only [if_pos]
    rw [maskFilter_eq_nil _ _ hmask, maskFilter_eq_nil _ _ hmask]

/-- Witness for `fixed_camera_filter_amended`: position 2 of
`exFixedFile`'s assembled channels satisfies the swapped condition, hence
its mask entry is `true`. -/
theorem fixed_camera_filter_amended_witness :
    (fixedMask (assembledDistances [exFixedFile])
      (assembledAzimuths [exFixedFile])
      (assembledElevations [exFixedFile])).get? 2 = some true :=
  (fixed_camera_filter_amended.1 [exFixedFile] 2 0 1 0
      (by norm_num [assembledDistances, exFixedFile, normalizeChannel,
        npMin, npMax])
      (by norm_num [assembledAzimuths, exFixedFile, normalizeChannel,
        npMin, npMax])
      (by norm_num [assembledElevations, exFixedFile, normalizeChannel,
        npMin, npMax])).mpr
    (by norm_num [assembledDistances, assembledAzimuths,
      assembledElevations, exFixedFile, normalizeChannel, npMin, npMax])

/-- C6: `load_dataset` normalizes the three camera channels independently
over the whole concatenated set; whenever a channel is non-degenerate its
normalized values lie in `[0, 1]`, positions holding the channel minimum
map to `0` and positions holding the maximum map to `1`. -/
theorem normalization_unit_interval (files : List EpisodeFile)
    (hd : npMin ((files.map (fun f => f.camera_distances)).flatten) ≠
          npMax ((files.map (fun f => f.camera_distances)).flatten))
    (ha : npMin ((files.map (fun f => f.azimuths)).flatten) ≠
          npMax ((files.map (fun f => f.azimuths)).flatten))
    (he : npMin ((files.map (fun f => f.elevations)).flatten) ≠
          npMax ((files.map (fun f => f.elevations)).flatten)) :
    (assembledDistances files =
        normalizeChannel ((files.map (fun f => f.camera_distances)).flatten) ∧
     assembledAzimuths files =
        normalizeChannel ((files.map (fun f => f.azimuths)).flatten) ∧
     assembledElevations files =
        normalizeChannel ((files.map (fun f => f.elevations)).flatten)) ∧
    ((∀ y ∈ assembledDistances files, 0 ≤ y ∧ y ≤ 1) ∧
     (∀ (i : ℕ) (x : ℚ),
        ((files.map (fun f => f.camera_distances)).flatten).get? i = some x →
        x = npMin ((files.map (fun f => f.camera_distances)).flatten) →
        (assembledDistances files).get? i = some 0) ∧
     (∀ (i : ℕ) (x : ℚ),
        ((files.map (fun f => f.camera_distances)).flatten).get? i = some x →
        x = npMax ((files.map (fun f => f.camera_distances)).flatten) →
        (assembledDistances files).get? i = some 1)) ∧
    ((∀ y ∈ assembledAzimuths files, 0 ≤ y ∧ y ≤ 1) ∧
     (∀ (i : ℕ) (x : ℚ),
        ((files.map (fun f => f.azimuths)).flatten).get? i = some x →
        x = npMin ((files.map (fun f => f.azimuths)).flatten) →
        (assembledAzimuths files).get? i = some 0) ∧
     (∀ (i : ℕ) (x : ℚ),
        ((files.map (fun f => f.azimuths)).flatten).get? i = some x →
        x = npMax ((files.map (fun f => f.azimuths)).flatten) →
        (assembledAzimuths files).get? i = some 1)) ∧
    ((∀ y ∈ assembledElevations files, 0 ≤ y ∧ y ≤ 1) ∧
     (∀ (i : ℕ) (x : ℚ),
        ((files.map (fun f => f.elevations)).flatten).get? i = some x →
        x = npMin ((files.map (fun f => f.elevations)).flatten) →
        (assembledElevations files).get? i = some 0) ∧
     (∀ (i : ℕ) (x : ℚ),
        ((files.map (fun f => f.elevations)).flatten).get? i = some x →
        x = npMax ((files.map (fun f => f.elevations)).flatten) →
        (assembledElevations files).get? i = some 1)) :=
  ⟨⟨rfl, rfl, rfl⟩,
   normalizeChannel_spec _ hd,
   normalizeChannel_spec _ ha,
   normalizeChannel_spec _ he⟩

/-- A two-sample episode file with non-degenerate camera channels. -/
def exRangeFile : EpisodeFile :=
  { latents := [[[4]], [[6]]]
  , camera_distances := [1, 2]
  , azimuths := [0, 4]
  , elevations := [5, 7]
  , object_ids := [0, 0]
  , target_coords := [[0], [0]] }

/-- Witness for `normalization_unit_interval` at `exRangeFile`: the first
distance (the channel minimum 1) is normalized to 0 and the second (the
maximum 2) to 1. -/
theorem normalization_unit_interval_witness :
    (assembledDistances [exRangeFile]).get? 0 = some 0 ∧
    (assembledDistances [exRangeFile]).get? 1 = some 1 := by
  have h := normalization_unit_interval [exRangeFile]
    (by decide) (by decide) (by decide)
  exact ⟨h.2.1.2.1 0 1 (by decide) (by decide),
         h.2.1.2.2 1 2 (by decide) (by decide)⟩

/-! ### Debug-mode subsampling (claim about lines 71-74) -/

/-- Three-sample input set, so `inputs.shape[0] = 3`. -/
def exInputs3 : List (List ℚ) := [[1], [2], [3]]

/-- A draw that `np.random.random_integers(0, 3, 10)` can produce: ten
indices, each in the inclusive range `[0, 3]`. -/
def exDraw : List ℕ := [3, 0, 0, 0, 0, 0, 0, 0, 0, 0]

/-- C2 (code evaluated at the failing input): for a dataset of three
samples the debug draw `exDraw` is a possible output of
`np.random.random_integers(0, inputs.shape[0], 10)` — the upper bound of
`random_integers` is *inclusive* — yet it contains the index 3, which is
not below the dataset length, and fancy indexing with it raises
`IndexError` (modelled as `none`). -/
theorem debug_subsample_out_of_range :
    debugDrawPossible 3 exDraw ∧
    ¬ (3 < 3) ∧
    (3 : ℕ) ∈ exDraw ∧
    fancyIndex exInputs3 exDraw = none := by
  refine ⟨⟨rfl, ?_⟩, by decide, by decide, by decide⟩
  intro k hk
  have : k = 3 ∨ k = 0 := by
    simp only [exDraw, List.mem_cons] at hk
    rcases hk with h | h
    · exact Or.inl h
    · refine Or.inr ?_
      simp only [List.mem_cons, List.not_mem_nil, or_false] at h
      rcases h with h | h | h | h | h | h | h | h | h <;> exact h
  rcases this with h | h <;> simp [debugIndexPossible, h]

/-! ### Best-so-far checkpointing (lines 123 and 224-226) -/

/-- The comparison `avg_loss < best_val` where `best_val` starts at `np.inf`; `none`
stands for the initial infinity. -/
def ltBest (x : ℚ) : Option ℚ → Bool
  | none => true
  | some b => decide (x < b)

/-- One pass of the epoch loop, lines 224-226: write the checkpoint and
lower `best_val` exactly when the epoch's mean validation loss improves
on the best seen so far. -/
def checkpointWritesAux : Option ℚ → List ℚ → List Bool
  | _, [] => []
  | best, l :: ls =>
    if ltBest l best then true :: checkpointWritesAux (some l) ls
    else false :: checkpointWritesAux best ls

/-- Per-epoch write flags of the whole run (`best_val = np.inf`, line
123). -/
def checkpointWrites (losses : List ℚ) : List Bool :=
  checkpointWritesAux none losses

/-- File-system operations the training loop can perform on the model
artifact. -/
inductive FileOp where
  | write (path : String)
  | delete (path : String)
deriving DecidableEq, Repr

/-- The file operations issued by the epoch loop: on improvement, one
`torch.save` to `save_path/model.pth.tar` (line 226); no other operation
on the artifact ever occurs. -/
def checkpointFileOps (savePath : String) (losses : List ℚ) : List FileOp :=
  ((checkpointWrites losses).map
    (fun b => if b then [FileOp.write (savePath ++ "/model.pth.tar")] else [])).flatten

theorem ltBest_update (x l : ℚ) (best : Option ℚ) :
    (ltBest x (if ltBest l best then some l else best) = true ↔
      (ltBest x best = true ∧ x < l)) := by
  cases best with
  | none =>
    have h1 : ltBest l none = true := rfl
    rw [if_pos h1]
    simp [ltBest]
  | some b =>
    by_cases h : l < b
    · have h1 : ltBest l (some b) = true := by simp [ltBest, h]
      rw [if_pos h1]
      simp only [ltBest, decide_eq_true_eq]
      exact ⟨fun hxl => ⟨lt_trans hxl h, hxl⟩, fun hp => hp.2⟩
    · have h1 : ¬ ltBest l (some b) = true := by simp [ltBest, h]
      rw [if_neg h1]
      simp only [ltBest, decide_eq_true_eq]
      exact ⟨fun hxb => ⟨hxb, lt_of_lt_of_le hxb (le_of_not_lt h)⟩,
        fun hp => hp.1⟩

theorem checkpointWritesAux_get? :
    ∀ (ls : List ℚ) (best : Option ℚ) (k : ℕ),
      ((checkpointWritesAux best ls).get? k = some true ↔
        ∃ x, ls.get? k = some x ∧ ltBest x best = true ∧
          ∀ j y, j < k → ls.get? j = some y → x < y)
  | [], best, k => by simp [checkpointWritesAux]
  | l :: ls, best, 0 => by
    cases hlb : ltBest l best with
    | true => simp [checkpointWritesAux, hlb]
    | false => simp [checkpointWritesAux, hlb]
  | l :: ls, best, (k + 1) => by
    have ih := checkpointWritesAux_get? ls
      (if ltBest l best then some l else best) k
    have hstep :
        (checkpointWritesAux best (l :: ls)).get? (k + 1) =
          (checkpointWritesAux
            (if ltBest l best then some l else best) ls).get? k := by
      cases hlb : ltBest l best <;> simp [checkpointWritesAux, hlb]
    rw [hstep, ih]
    constructor
    · rintro ⟨x, hx, hbest, hall⟩
      have hb := (ltBest_update x l best).mp hbest
      refine ⟨x, hx, hb.1, ?_⟩
      intro j y hj hy
      cases j with
      | zero =>
        have : y = l := by
          simp only [List.get?] at hy
          exact (Option.some.inj hy).symm
        rw [this]; exact hb.2
      | succ j' =>
        exact hall j' y (Nat.lt_of_succ_lt_succ hj) hy
    · rintro ⟨x, hx, hbest, hall⟩
      have hxl : x < l := hall 0 l (Nat.succ_pos k) rfl
      exact ⟨x, hx, (ltBest_update x l best).mpr ⟨hbest, hxl⟩,
        fun j y hj hy => hall (j + 1) y (Nat.succ_lt_succ hj) hy⟩

/-- C3: the checkpoint is written at epoch `k` (0-indexed here) exactly
when that epoch's mean validation loss is strictly below every preceding
epoch's loss (initial best is infinity); on the loss sequence
`[5, 3, 4, 2]` the writes happen at epochs 0, 1 and 3 (1-indexed: 1, 2
and 4); and every file operation the loop performs on the artifact is a
write of the same path `save_path/model.pth.tar` — never a delete. -/
theorem checkpoint_best_so_far :
    (∀ (losses : List ℚ) (k : ℕ),
        ((checkpointWrites losses).get? k = some true ↔
          ∃ x, losses.get? k = some x ∧
            ∀ j y, j < k → losses.get? j = some y → x < y)) ∧
    checkpointWrites [5, 3, 4, 2] = [true, true, false, true] ∧
    (∀ (savePath : String) (losses : List ℚ) (op : FileOp),
        op ∈ checkpointFileOps savePath losses →
        op = FileOp.write (savePath ++ "/model.pth.tar")) := by
  refine ⟨?_, ?_, ?_⟩
  · intro losses k
    have h := checkpointWritesAux_get? losses none k
    simpa [checkpointWrites, ltBest] using h
  · decide
  · intro savePath losses op hop
    rcases List.mem_flatten.mp hop with ⟨ops, hops, hmem⟩
    rcases List.mem_map.mp hops with ⟨b, _, hb⟩
    cases b with
    | true =>
      subst hb
      simpa using hmem
    | false =>
      subst hb
      exact absurd hmem (List.not_mem_nil op)

/-- Witness for `checkpoint_best_so_far`: on `[5, 3, 4, 2]` the write flag
of epoch 3 (0-indexed) is set, via the best-so-far characterization. -/
theorem checkpoint_best_so_far_witness :
    (checkpointWrites [5, 3, 4, 2]).get? 3 = some true :=
  (checkpoint_best_so_far.1 [5, 3, 4, 2] 3).mpr
    ⟨2, rfl, by
      intro j y hj hy
      interval_cases j <;>
        simp_all <;> linarith⟩

/-! ### Argument parsing (`src/motion_planning/utils.py` lines 80-134)
and the prologue of `main` (`scripts/perception_policy_train.py` lines
82-89 and 239-240) -/

/-- The attribute names present on the namespace returned by
`parse_arguments`, one group per flag, in the order the groups are added
(argparse turns `--a-b` into attribute `a_b`).  Translated from
`parse_arguments`, `utils.py` lines 80-134. -/
def parseArgumentsAttrs (behavioural_vae policy gibson dbg feedforward : Bool) :
    List String :=
  (if behavioural_vae then
    ["vae_name", "latent_dim", "num_joints", "num_actions", "duration",
     "conv", "conv_channel", "kernel_row"] else []) ++
  (if policy then
    ["folder_name", "iterations", "batch_size", "lr", "debug",
     "random_goal", "train"] else []) ++
  (if gibson then ["g_name", "g_latent"] else []) ++
  (if dbg then ["dataset_name"] else []) ++
  (if feedforward then
    ["random_goal", "policy_name", "num_steps", "model_index"] else [])

/-- The attribute reads `main` performs before anything else can happen:
`args.policy_name` on line 84 and `args.model_index` in the assert on
line 89 (`save_arguments` and `use_cuda`, in between, read no argument
attributes relevant here; the line-84 read already precedes them). -/
def mainAccessOrder : List String := ["policy_name", "model_index"]

/-- The first attribute `main` reads that the namespace does not carry:
the read that raises `AttributeError`. -/
def firstMissingAttr (attrs accesses : List String) : Option String :=
  accesses.find? (fun a => decide (a ∉ attrs))

/-- How the prologue of `main` ends: an `AttributeError` on a missing
attribute, or reaching the `assert(args.model_index > 0)` check. -/
inductive MainStartResult where
  | attributeError (attr : String)
  | reachedAssert
deriving DecidableEq, Repr

/-- Run the attribute reads of `main`'s prologue against a namespace. -/
def mainStart (attrs : List String) : MainStartResult :=
  match firstMissingAttr attrs mainAccessOrder with
  | some a => MainStartResult.attributeError a
  | none => MainStartResult.reachedAssert

/-- C4: with the entry point's exact configuration
`parse_arguments(behavioural_vae=True, policy=True, gibson=True)`
(so `feedforward=False`), the produced namespace has neither
`policy_name` nor `model_index`, and `main`'s prologue dies with an
`AttributeError` on `policy_name` (line 84) — it never reaches the
`model_index` positivity check of line 89. -/
theorem entry_point_attribute_error :
    "policy_name" ∉ parseArgumentsAttrs true true true false false ∧
    "model_index" ∉ parseArgumentsAttrs true true true false false ∧
    mainStart (parseArgumentsAttrs true true true false false) =
      MainStartResult.attributeError "policy_name" ∧
    mainStart (parseArgumentsAttrs true true true false false) ≠
      MainStartResult.reachedAssert := by
  refine ⟨by decide, by decide, by decide, by decide⟩

/-! ### The `model_index` guard of `main` (lines 89, 91-236) -/

/-- The externally observable actions of one run of `main`. -/
inductive MainEvent where
  | saveArgs
  | assertFailure
  | loadVAE
  | loadData
  | trainEpoch
  | checkpointWrite
deriving DecidableEq, Repr

/-- Events of the epoch loop (lines 129-236): each epoch trains, then
writes the checkpoint exactly when its mean validation loss improves on
the best so far. -/
def epochEvents (valLosses : List ℚ) : List MainEvent :=
  ((checkpointWrites valLosses).map
    (fun b => MainEvent.trainEpoch ::
      if b then [MainEvent.checkpointWrite] else [])).flatten

/-- The event trace of `main`, given a `model_index` value and the mean
validation loss of each epoch: arguments are saved (line 85), then the
assert of line 89 either aborts the run or lets it proceed to the VAE
load (line 91), the data load (line 100) and the epoch loop. -/
def mainEvents (modelIndex : ℤ) (valLosses : List ℚ) : List MainEvent :=
  MainEvent.saveArgs ::
  (if 0 < modelIndex then
    MainEvent.loadVAE :: MainEvent.loadData :: epochEvents valLosses
  else [MainEvent.assertFailure])

/-- C5: whenever `model_index ≤ 0` the run aborts at the assert of line
89 — before any data is loaded, before any training epoch and before any
artifact write; when `model_index > 0` the assert passes and the data
load is reached. -/
theorem model_index_guard (modelIndex : ℤ) (valLosses : List ℚ) :
    (modelIndex ≤ 0 →
      mainEvents modelIndex valLosses =
        [MainEvent.saveArgs, MainEvent.assertFailure] ∧
      MainEvent.loadData ∉ mainEvents modelIndex valLosses ∧
      MainEvent.trainEpoch ∉ mainEvents modelIndex valLosses ∧
      MainEvent.checkpointWrite ∉ mainEvents modelIndex valLosses) ∧
    (0 < modelIndex →
      MainEvent.assertFailure ∉ mainEvents modelIndex valLosses ∧
      MainEvent.loadData ∈ mainEvents modelIndex valLosses) := by
  constructor
  · intro h
    have hn : ¬ 0 < modelIndex := not_lt.mpr h
    refine ⟨by simp [mainEvents, hn], ?_, ?_, ?_⟩ <;>
      simp [mainEvents, hn]
  · intro h
    constructor
    · simp only [mainEvents, if_pos h]
      simp only [List.mem_cons, List.mem_flatten, epochEvents]
      push_neg
      refine ⟨by decide, by decide, by decide, ?_⟩
      intro ops hops
      rcases List.mem_map.mp hops with ⟨b, _, hb⟩
      cases b with
      | true => subst hb; decide
      | false => subst hb; decide
    · simp [mainEvents, h]

/-- Witness for `model_index_guard` at `model_index = 0` and a one-epoch
loss sequence: the run stops at the assert with no data load, no
training and no artifact write. -/
theorem model_index_guard_witness :
    mainEvents 0 [1] = [MainEvent.saveArgs, MainEvent.assertFailure] ∧
    MainEvent.loadData ∉ mainEvents 0 [1] ∧
    MainEvent.trainEpoch ∉ mainEvents 0 [1] ∧
    MainEvent.checkpointWrite ∉ mainEvents 0 [1] :=
  (model_index_guard 0 [1]).1 (by decide)

/-! ### Train/validation split (lines 114-118) -/

/-- Line 115, `train_size = int(dataset.__len__() * 0.7)`, with Python's
float literal `0.7` idealized as the exact rational `7/10`. -/
def trainSize (n : ℕ) : ℕ := Int.toNat ⌊(0.7 : ℚ) * n⌋

/-- Line 118, `data.random_split(dataset, (train_size, test_size))`:
torch draws a random permutation of the `n` indices and hands the first
`train_size` of them to the train partition and the rest to the
validation partition.  The permutation is the explicit parameter. -/
def randomSplit (n : ℕ) (perm : List ℕ) : List ℕ × List ℕ :=
  (perm.take (trainSize n), perm.drop (trainSize n))

theorem trainSize_le (n : ℕ) : trainSize n ≤ n := by
  have h1 : (0.7 : ℚ) * n ≤ (n : ℚ) := by
    have hn : (0 : ℚ) ≤ (n : ℚ) := Nat.cast_nonneg n
    nlinarith
  have h2 : ⌊(0.7 : ℚ) * n⌋ ≤ ⌊(n : ℚ)⌋ := Int.floor_le_floor h1
  rw [Int.floor_natCast] at h2
  exact Int.toNat_le.mpr h2

/-- C7: the split of line 115-118 sends exactly `int(0.7 * n)` indices to
the train partition and the remaining `n - int(0.7 * n)` to the
validation partition; the two partitions are disjoint and together are a
permutation of all `n` indices. -/
theorem train_val_split_partition (n : ℕ) (perm : List ℕ)
    (hp : perm.Perm (List.range n)) :
    (randomSplit n perm).1.length = trainSize n ∧
    (randomSplit n perm).2.length = n - trainSize n ∧
    (randomSplit n perm).1.Disjoint (randomSplit n perm).2 ∧
    ((randomSplit n perm).1 ++ (randomSplit n perm).2).Perm (List.range n) ∧
    trainSize n ≤ n := by
  have hlen : perm.length = n := by
    rw [hp.length_eq, List.length_range]
  have hnd : perm.Nodup := (hp.nodup_iff).mpr (List.nodup_range n)
  refine ⟨?_, ?_, ?_, ?_, trainSize_le n⟩
  · rw [randomSplit, List.length_take, hlen]
    exact min_eq_left (trainSize_le n)
  · rw [randomSplit, List.length_drop, hlen]
  · exact List.disjoint_take_drop hnd (le_refl (trainSize n))
  · rw [randomSplit, List.take_append_drop]
    exact hp

/-- Witness for `train_val_split_partition` at `n = 3` with the concrete
permutation `[2, 0, 1]`. -/
theorem train_val_split_partition_witness :
    (randomSplit 3 [2, 0, 1]).1.length = trainSize 3 ∧
    (randomSplit 3 [2, 0, 1]).2.length = 3 - trainSize 3 ∧
    (randomSplit 3 [2, 0, 1]).1.Disjoint (randomSplit 3 [2, 0, 1]).2 ∧
    ((randomSplit 3 [2, 0, 1]).1 ++ (randomSplit 3 [2, 0, 1]).2).Perm
      (List.range 3) ∧
    trainSize 3 ≤ 3 :=
  train_val_split_partition 3 [2, 0, 1] (List.isPerm_iff.mp (by decide))

/-! ### Dataset length in variable-camera mode (lines 30-46, 67-79) -/

theorem appendCamera_length (lats : List (List ℚ)) (dists azs els : List ℚ) :
    (appendCamera lats dists azs els).length =
      min lats.length (min dists.length (min azs.length els.length)) := by
  simp [appendCamera]

/-- C8: in variable-camera mode (debug off), for files whose six arrays
are sample-aligned, the assembled dataset has exactly as many input rows
and as many target rows as the sum of the per-file sample counts. -/
theorem dataset_length_sum (files : List EpisodeFile)
    (hc : ∀ f ∈ files, f.consistent) :
    (loadDataset files false).1.length =
      (files.map EpisodeFile.sampleCount).sum ∧
    (loadDataset files false).2.length =
      (files.map EpisodeFile.sampleCount).sum := by
  have hlat : (assembledLatents files).length =
      (files.map EpisodeFile.sampleCount).sum := by
    rw [assembledLatents, List.length_flatten, List.map_map]
    refine congrArg List.sum (List.map_congr_left ?_)
    intro f hf
    simp only [Function.comp, sliceFirstTimestep, List.length_map,
      EpisodeFile.sampleCount]
    exact (hc f hf).1
  have hdist : (assembledDistances files).length =
      (files.map EpisodeFile.sampleCount).sum := by
    rw [assembledDistances, normalizeChannel, List.length_map,
      List.length_flatten, List.map_map]
    rfl
  have hazs : (assembledAzimuths files).length =
      (files.map EpisodeFile.sampleCount).sum := by
    rw [assembledAzimuths, normalizeChannel, List.length_map,
      List.length_flatten, List.map_map]
    refine congrArg List.sum (List.map_congr_left ?_)
    intro f hf
    show f.azimuths.length = f.camera_distances.length
    exact (hc f hf).2.1.symm
  have hels : (assembledElevations files).length =
      (files.map EpisodeFile.sampleCount).sum := by
    rw [assembledElevations, normalizeChannel, List.length_map,
      List.length_flatten, List.map_map]
    refine congrArg List.sum (List.map_congr_left ?_)
    intro f hf
    show f.elevations.length = f.camera_distances.length
    exact ((hc f hf).2.1.trans (hc f hf).2.2.1).symm
  have htars : (assembledTargets files).length =
      (files.map EpisodeFile.sampleCount).sum := by
    rw [assembledTargets, List.length_flatten, List.map_map]
    refine congrArg List.sum (List.map_congr_left ?_)
    intro f hf
    show f.target_coords.length = f.camera_distances.length
    exact (((hc f hf).2.1.trans (hc f hf).2.2.1).trans (hc f hf).2.2.2).symm
  constructor
  · show (appendCamera (assembledLatents files) (assembledDistances files)
      (assembledAzimuths files) (assembledElevations files)).length = _
    rw [appendCamera_length, hlat, hdist, hazs, hels, min_self, min_self,
      min_self]
  · show (assembledTargets files).length = _
    exact htars

/-- Witness for `dataset_length_sum` at the consistent file
`exRangeFile`. -/
theorem dataset_length_sum_witness :
    (loadDataset [exRangeFile] false).1.length =
      ([exRangeFile].map EpisodeFile.sampleCount).sum ∧
    (loadDataset [exRangeFile] false).2.length =
      ([exRangeFile].map EpisodeFile.sampleCount).sum :=
  dataset_length_sum [exRangeFile]
    (by
      intro f hf
      simp only [List.mem_singleton] at hf
      subst hf
      exact ⟨rfl, rfl, rfl, rfl⟩)

/-! ### Only the first latent time step is used (line 33) -/

/-- Throw away every time step of every sample's latent array except the
first one. -/
def truncateLatents (f : EpisodeFile) : EpisodeFile :=
  { f with latents := f.latents.map (fun sample => [sample.headD []]) }

/-- C9: `load_dataset` reads the latent array only through the slice
`dataset[0][:, 0, :]` — replacing every latent array by its first time
step alone changes nothing in the assembled dataset, in either camera
mode. -/
theorem latent_first_timestep_only (files : List EpisodeFile) (fc : Bool) :
    loadDataset (files.map truncateLatents) fc = loadDataset files fc := by
  have hlat : assembledLatents (files.map truncateLatents) =
      assembledLatents files := by
    rw [assembledLatents, assembledLatents, List.map_map]
    refine congrArg List.flatten (List.map_congr_left ?_)
    intro f _
    simp [Function.comp, truncateLatents, sliceFirstTimestep, List.map_map]
  have hdist : assembledDistances (files.map truncateLatents) =
      assembledDistances files := by
    rw [assembledDistances, assembledDistances, List.map_map]; rfl
  have hazs : assembledAzimuths (files.map truncateLatents) =
      assembledAzimuths files := by
    rw [assembledAzimuths, assembledAzimuths, List.map_map]; rfl
  have hels : assembledElevations (files.map truncateLatents) =
      assembledElevations files := by
    rw [assembledElevations, assembledElevations, List.map_map]; rfl
  have htars : assembledTargets (files.map truncateLatents) =
      assembledTargets files := by
    rw [assembledTargets, assembledTargets, List.map_map]; rfl
  rw [loadDataset, loadDataset, hlat, hdist, hazs, hels, htars]

/-! ### The joint pose handed to the kinematics call
(lines 140-170 and 186-214) -/

/-- The unnormalization `(MAX_ANGLE - MIN_ANGLE) * end_joint_pose + MIN_ANGLE` (lines 156 and
202); the two angle constants come from `behavioural_vae.utils` and are
opaque parameters here. -/
def unnormalizeAngles (minA maxA : ℚ) (pose : List ℚ) : List ℚ :=
  pose.map (fun x => (maxA - minA) * x + minA)

/-- The slice `trajectories[:, :, -1]` for one sample (lines 154 and 199): the last
time step of each joint's row of the reshaped trajectory. -/
def lastJointPose (traj : List (List ℚ)) : List ℚ :=
  traj.map (fun joint => joint.getLastD 0)

/-- What one batch of the loop body produces: the decoded (reshaped)
trajectories, the joint poses handed to `end_effector_pose`, and the
returned end-effector poses. -/
structure BatchTrace where
  trajectories : List (List (List ℚ))
  kinInput : List (List ℚ)
  endPoses : List (List ℚ)
deriving DecidableEq, Repr

/-- The shared body of the training and validation loops (lines 140-161
and 186-207): policy, decoder (composed with `to_trajectory`), last-pose
slice, fixed affine unnormalization, kinematics. -/
def forwardBatch {P : Type} (applyPolicy : P → List ℚ → List ℚ)
    (decode : List ℚ → List (List ℚ)) (kin : List ℚ → List ℚ)
    (minA maxA : ℚ) (p : P) (batch : List (List ℚ)) : BatchTrace :=
  let latent2 := batch.map (applyPolicy p)
  let trajs := latent2.map decode
  let endJoint := trajs.map lastJointPose
  let unnorm := endJoint.map (unnormalizeAngles minA maxA)
  { trajectories := trajs, kinInput := unnorm, endPoses := unnorm.map kin }

/-- The training pass (lines 140-170): after each batch the optimizer
step mutates the policy, modelled by `update`. -/
def trainPass {P : Type} (applyPolicy : P → List ℚ → List ℚ)
    (decode : List ℚ → List (List ℚ)) (kin : List ℚ → List ℚ)
    (minA maxA : ℚ) (update : P → BatchTrace → P) :
    P → List (List (List ℚ)) → P × List BatchTrace
  | p, [] => (p, [])
  | p, b :: bs =>
    let t := forwardBatch applyPolicy decode kin minA maxA p b
    let rest := trainPass applyPolicy decode kin minA maxA update
      (update p t) bs
    (rest.1, t :: rest.2)

/-- The validation pass (lines 186-214): the policy is fixed. -/
def valPass {P : Type} (applyPolicy : P → List ℚ → List ℚ)
    (decode : List ℚ → List (List ℚ)) (kin : List ℚ → List ℚ)
    (minA maxA : ℚ) (p : P) (batches : List (List (List ℚ))) :
    List BatchTrace :=
  batches.map (forwardBatch applyPolicy decode kin minA maxA p)

theorem forwardBatch_kinInput {P : Type}
    (applyPolicy : P → List ℚ → List ℚ) (decode : List ℚ → List (List ℚ))
    (kin : List ℚ → List ℚ) (minA maxA : ℚ) (p : P)
    (batch : List (List ℚ)) :
    (forwardBatch applyPolicy decode kin minA maxA p batch).kinInput =
      (forwardBatch applyPolicy decode kin minA maxA p batch).trajectories.map
        (fun traj => unnormalizeAngles minA maxA (lastJointPose traj)) ∧
    (forwardBatch applyPolicy decode kin minA maxA p batch).endPoses =
      (forwardBatch applyPolicy decode kin minA maxA p batch).kinInput.map
        kin := by
  simp [forwardBatch, List.map_map, Function.comp]

/-- C10: in every batch of both the training and the validation pass, the
joint pose handed to `end_effector_pose` is the last time step of the
decoded trajectory transformed by `(MAX_ANGLE - MIN_ANGLE) * x +
MIN_ANGLE`, and the end-effector poses are computed exactly from those
unnormalized poses. -/
theorem kinematics_input_unnormalized_last_pose {P : Type}
    (applyPolicy : P → List ℚ → List ℚ) (decode : List ℚ → List (List ℚ))
    (kin : List ℚ → List ℚ) (minA maxA : ℚ) (update : P → BatchTrace → P)
    (p₀ pv : P) (trainBatches valBatches : List (List (List ℚ)))
    (t : BatchTrace)
    (ht : t ∈ (trainPass applyPolicy decode kin minA maxA update p₀
            trainBatches).2 ∨
          t ∈ valPass applyPolicy decode kin minA maxA pv valBatches) :
    t.kinInput = t.trajectories.map
      (fun traj => unnormalizeAngles minA maxA (lastJointPose traj)) ∧
    t.endPoses = t.kinInput.map kin := by
  rcases ht with ht | ht
  · induction trainBatches generalizing p₀ with
    | nil => simp [trainPass] at ht
    | cons b bs ih =>
      rw [trainPass] at ht
      rcases List.mem_cons.mp ht with h | h
      · subst h
        exact forwardBatch_kinInput applyPolicy decode kin minA maxA p₀ b
      · exact ih _ h
  · rcases List.mem_map.mp ht with ⟨b, _, hb⟩
    subst hb
    exact forwardBatch_kinInput applyPolicy decode kin minA maxA pv b

/-- The concrete one-batch trace used to witness
`kinematics_input_unnormalized_last_pose`. -/
def wTrace : BatchTrace :=
  forwardBatch (fun (_ : Unit) (l : List ℚ) => l) (fun l => [l])
    (fun l => l) 0 1 () [[1]]

/-- Witness for `kinematics_input_unnormalized_last_pose` on a one-batch
training pass with identity collaborators. -/
theorem kinematics_input_unnormalized_last_pose_witness :
    wTrace.kinInput = wTrace.trajectories.map
      (fun traj => unnormalizeAngles 0 1 (lastJointPose traj)) ∧
    wTrace.endPoses = wTrace.kinInput.map (fun l => l) :=
  kinematics_input_unnormalized_last_pose
    (fun (_ : Unit) (l : List ℚ) => l) (fun l => [l]) (fun l => l) 0 1
    (fun p _ => p) () () [[[1]]] [] wTrace
    (Or.inl (List.mem_cons_self wTrace []))

end AffordanceGym
